import Mathlib

/-!
Verification development for the hierarchical folder-collection store
(`storage.ts`, `favicon.ts`/`utils.ts`, `backup.ts` of the folders
extension).  The TypeScript sources are shallowly embedded: pure
functions become Lean functions on `List`-based data, the stateful
storage layer is modelled by explicit state passing over `StoreState`,
and JavaScript strings are modelled as Lean `String`s with the handful
of primitive operations (trim, split, repeat, case-insensitive tests)
re-implemented structurally over `List Char` so that they compute by
kernel reduction.  JavaScript truthiness of optional string fields is
modelled by `truthyStr` (both `undefined` and `""` are falsy).
-/

namespace Folders

/-! ## JavaScript string primitives, modelled structurally -/

/-- Model of JS `String.prototype.trim`: drop whitespace from both ends. -/
def jsTrim (s : String) : String :=
  ⟨((s.data.dropWhile Char.isWhitespace).reverse.dropWhile Char.isWhitespace).reverse⟩

/-- Split a character list at every occurrence of the separator character.
Model of JS `String.prototype.split` with a one-character separator. -/
def splitChars (sep : Char) : List Char → List (List Char)
  | [] => [[]]
  | c :: cs =>
    let r := splitChars sep cs
    if c = sep then [] :: r
    else
      match r with
      | h :: t => (c :: h) :: t
      | [] => [[c]]

/-- Model of JS `value.split(sep)` for a one-character separator. -/
def jsSplit (sep : Char) (s : String) : List String :=
  (splitChars sep s.data).map (fun cs => ⟨cs⟩)

/-- Model of JS `s.repeat(n)`. -/
def jsRepeat (s : String) (n : Nat) : String :=
  ⟨(List.replicate n s.data).flatten⟩

/-- Lower-cased code point of an ASCII character (other characters unchanged). -/
def toLowerNat (c : Char) : Nat :=
  if 65 ≤ c.toNat ∧ c.toNat ≤ 90 then c.toNat + 32 else c.toNat

/-- Case-insensitive character comparison (ASCII case folding). -/
def charEqCI (a b : Char) : Bool :=
  toLowerNat a == toLowerNat b

/-- Does the second list start with the first one, comparing
characters case-insensitively? -/
def startsWithCI : List Char → List Char → Bool
  | [], _ => true
  | _ :: _, [] => false
  | p :: ps, c :: cs => charEqCI p c && startsWithCI ps cs

/-- Model of the JS regular-expression test `/^https?:\/\//i`. -/
def hasHttpScheme (s : String) : Bool :=
  startsWithCI "http://".data s.data || startsWithCI "https://".data s.data

/-- Character class `[a-z0-9]` under the `i` regex flag. -/
def isAlnumCI (c : Char) : Bool :=
  ('a' ≤ c && c ≤ 'z') || ('A' ≤ c && c ≤ 'Z') || ('0' ≤ c && c ≤ '9')

/-- Three-way code-point comparison of character lists, returning
`-1`, `0` or `1`.  `localeCompare` of the source is modelled by this
code-point lexicographic comparison. -/
def cmpChars : List Char → List Char → Int
  | [], [] => 0
  | [], _ :: _ => -1
  | _ :: _, [] => 1
  | a :: as, b :: bs => if a < b then -1 else if b < a then 1 else cmpChars as bs

/-- JS truthiness of an optional string field: `undefined` and `""` are falsy. -/
def truthyStr : Option String → Bool
  | some s => s != ""
  | none => false

/-! ## Data model (`types.ts`) -/

/-- The `type` discriminator of a `FolderItem`. -/
inductive ItemType where
  | application
  | folder
  | website
deriving DecidableEq, Repr

/-- `FolderItem` of `types.ts`: a typed entry of a folder.  Optional
fields are `Option`s; which one is populated depends on `type`. -/
structure FolderItem where
  id : String
  name : String
  type : ItemType
  path : Option String := none
  folderId : Option String := none
  url : Option String := none
  icon : Option String := none
  lastUsed : Option Nat := none
deriving DecidableEq, Repr

/-- `Folder` of `types.ts`: a named ordered collection of items. -/
structure Folder where
  id : String
  name : String
  items : List FolderItem
  lastUsed : Option Nat := none
  icon : Option String := none
  color : Option String := none
deriving DecidableEq, Repr

/-! ## Storage layer (`storage.ts`)

The module-level mutable `cache` variable and the persisted blob under
`STORAGE_KEY` are modelled by an explicit `StoreState`; the persisted
JSON string is identified with the folder list it decodes to.  Each
storage operation becomes a function from `StoreState` to a
`RunResult` recording its return value, the final state, and the list
of `LocalStorage.setItem` payloads it issued (in order).  The
`pendingPromise` single-flight guard needs no model in this
single-threaded embedding. -/

/-- Is `item` an orphaned nested-folder reference (the filter test of
`cleanupOrphanedReferences`)?  Mirrors the JS conjunction
`item.type === "folder" && item.folderId && !folderIds.has(item.folderId)`
including the truthiness of `item.folderId`. -/
def isOrphanRef (folderIds : List String) (item : FolderItem) : Bool :=
  item.type == ItemType.folder &&
    (match item.folderId with
     | some fid => fid != "" && !(folderIds.contains fid)
     | none => false)

/-- Did `cleanupOrphanedReferences` remove at least one item
(the `hasChanges` flag of the source)? -/
def cleanupHasChanges (folders : List Folder) : Bool :=
  folders.any (fun f => f.items.any (isOrphanRef (folders.map (fun g => g.id))))

/-- `cleanupOrphanedReferences` of `storage.ts`: drop folder-reference
items whose target id does not exist; if nothing was dropped the
original list is returned (reference-equal in JS, value-equal here). -/
def cleanupOrphanedReferences (folders : List Folder) : List Folder :=
  let ids := folders.map (fun f => f.id)
  let cleaned := folders.map (fun f =>
    let cleanedItems := f.items.filter (fun item => !isOrphanRef ids item)
    if cleanedItems.length ≠ f.items.length then { f with items := cleanedItems } else f)
  if cleanupHasChanges folders then cleaned else folders

instance {ε α : Type} [DecidableEq ε] [DecidableEq α] : DecidableEq (Except ε α)
  | .error e, .error f => decidable_of_iff (e = f) (by simp)
  | .error _, .ok _ => isFalse (by simp)
  | .ok _, .error _ => isFalse (by simp)
  | .ok a, .ok b => decidable_of_iff (a = b) (by simp)

/-- The in-memory cache plus the decoded persisted blob. -/
structure StoreState where
  cache : Option (List Folder)
  blob : Option (List Folder)
deriving DecidableEq, Repr

/-- Result of running a storage operation: its return value, the final
store state, and the persisted-write payloads issued, in order. -/
structure RunResult (α : Type) where
  result : α
  state : StoreState
  writes : List (List Folder)
deriving DecidableEq, Repr

/-- `getFolders` of `storage.ts`.  A cache hit returns the cached
value; otherwise the blob is read (absent blob means `[]`), orphaned
references are cleaned, the cleaned data is persisted when (and only
when) the cleanup changed something (`cleaned !== folders`), and the
result is adopted as the cache. -/
def getFoldersRun (s : StoreState) : RunResult (List Folder) :=
  match s.cache with
  | some c => ⟨c, s, []⟩
  | none =>
    let folders := s.blob.getD []
    if cleanupHasChanges folders then
      let cleaned := cleanupOrphanedReferences folders
      ⟨cleaned, ⟨some cleaned, some cleaned⟩, [cleaned]⟩
    else
      ⟨folders, ⟨some folders, s.blob⟩, []⟩

/-- `Partial<Folder>` as passed to `updateFolder`: absent fields do not
overwrite.  For the fields that are already optional on `Folder`, a
present update carries an `Option` value (so that a caller can clear
the field, as the JS spread with an explicit `undefined` does). -/
structure FolderUpdates where
  id : Option String := none
  name : Option String := none
  items : Option (List FolderItem) := none
  lastUsed : Option (Option Nat) := none
  icon : Option (Option String) := none
  color : Option (Option String) := none
deriving DecidableEq, Repr

/-- The JS object spread `{ ...folder, ...updates }`. -/
def mergeUpdates (f : Folder) (u : FolderUpdates) : Folder :=
  { id := u.id.getD f.id
    name := u.name.getD f.name
    items := u.items.getD f.items
    lastUsed := u.lastUsed.getD f.lastUsed
    icon := u.icon.getD f.icon
    color := u.color.getD f.color }

/-- `updateFolder` of `storage.ts`: look up the folder by id; a missing
id throws (modelled by `Except.error`); otherwise the merged folder is
saved (cache update plus one persisted write). -/
def updateFolderRun (s : StoreState) (folderId : String) (updates : FolderUpdates) :
    RunResult (Except String Unit) :=
  let load := getFoldersRun s
  match load.result.findIdx? (fun f => f.id == folderId) with
  | none => ⟨Except.error ("Folder not found: " ++ folderId), load.state, load.writes⟩
  | some index =>
    match load.result.get? index with
    | none => ⟨Except.error ("Folder not found: " ++ folderId), load.state, load.writes⟩
    | some f =>
      let updated := load.result.set index (mergeUpdates f updates)
      ⟨Except.ok (), ⟨some updated, some updated⟩, load.writes ++ [updated]⟩

/-- The collection produced by `deleteFolder`: the folder is removed
and every nested-folder item referencing it is stripped from all other
folders, in one pass. -/
def deleteFolderUpdated (folders : List Folder) (folderId : String) : List Folder :=
  (folders.filter (fun f => f.id != folderId)).map (fun f =>
    { f with items := f.items.filter (fun item =>
        !(item.type == ItemType.folder && item.folderId == some folderId)) })

/-- `deleteFolder` of `storage.ts`: a missing id throws; otherwise the
folder and all references to it are removed and saved as one write. -/
def deleteFolderRun (s : StoreState) (folderId : String) : RunResult (Except String Unit) :=
  let load := getFoldersRun s
  if load.result.any (fun f => f.id == folderId) then
    let updated := deleteFolderUpdated load.result folderId
    ⟨Except.ok (), ⟨some updated, some updated⟩, load.writes ++ [updated]⟩
  else
    ⟨Except.error ("Folder not found: " ++ folderId), load.state, load.writes⟩

/-- `recordFolderAccess` of `storage.ts`: best-effort recency
bookkeeping; a missing folder id is a silent no-op, and an already
up-to-date timestamp issues no write. -/
def recordFolderAccessRun (s : StoreState) (folderId : String) (now : Nat) : RunResult Unit :=
  let load := getFoldersRun s
  match load.result.findIdx? (fun f => f.id == folderId) with
  | none => ⟨(), load.state, load.writes⟩
  | some index =>
    match load.result.get? index with
    | none => ⟨(), load.state, load.writes⟩
    | some f =>
      if f.lastUsed = some now then ⟨(), load.state, load.writes⟩
      else
        let updated := load.result.set index { f with lastUsed := some now }
        ⟨(), ⟨some updated, some updated⟩, load.writes ++ [updated]⟩

/-- `recordItemAccess` of `storage.ts`: best-effort recency bookkeeping
for an item; a missing folder id or item id is a silent no-op.  (The
`get?` fall-through branches are unreachable: the indices come from
`findIdx?`.) -/
def recordItemAccessRun (s : StoreState) (folderId itemId : String) (now : Nat) : RunResult Unit :=
  let load := getFoldersRun s
  match load.result.findIdx? (fun f => f.id == folderId) with
  | none => ⟨(), load.state, load.writes⟩
  | some folderIndex =>
    match load.result.get? folderIndex with
    | none => ⟨(), load.state, load.writes⟩
    | some folder =>
      match folder.items.findIdx? (fun i => i.id == itemId) with
      | none => ⟨(), load.state, load.writes⟩
      | some itemIndex =>
        match folder.items.get? itemIndex with
        | none => ⟨(), load.state, load.writes⟩
        | some item =>
          if item.lastUsed = some now then ⟨(), load.state, load.writes⟩
          else
            let updatedItems := folder.items.set itemIndex { item with lastUsed := some now }
            let updated := load.result.set folderIndex { folder with items := updatedItems }
            ⟨(), ⟨some updated, some updated⟩, load.writes ++ [updated]⟩

/-! ## URL utilities (`favicon.ts`) -/

/-- The scanner behind `convertDotText`: the global regex replace of
`([a-z0-9])dot([a-z0-9])` (case-insensitive) by `$1.$2`, scanning left
to right and continuing after each match, exactly as a JS global
`replace` does. -/
def convertDotTextChars : List Char → List Char
  | a :: d :: o :: t :: b :: rest =>
    if isAlnumCI a && charEqCI d 'd' && charEqCI o 'o' && charEqCI t 't' && isAlnumCI b then
      a :: '.' :: b :: convertDotTextChars rest
    else
      a :: convertDotTextChars (d :: o :: t :: b :: rest)
  | a :: rest => a :: convertDotTextChars rest
  | [] => []

/-- `convertDotText` of `favicon.ts`: turn `"dot"` between alphanumeric
characters into an actual dot (`discorddotcom` becomes `discord.com`). -/
def convertDotText (input : String) : String :=
  ⟨convertDotTextChars input.data⟩

/-- `normalizeUrl` of `favicon.ts`: trim, convert `"dot"` text, and add
an `https://` scheme when no `http(s)://` scheme is present. -/
def normalizeUrl (url : String) : String :=
  let trimmed := jsTrim url
  if trimmed = "" then ""
  else
    let withDots := convertDotText trimmed
    if hasHttpScheme withDots then withDots else "https://" ++ withDots

/-! ## Deduplicator (`utils.ts`) -/

/-- `getItemKey` of `utils.ts`: the deduplication identity key.  Note
that a website item is keyed by its stored URL verbatim; the key is
built from `item.url`, not from `normalizeUrl item.url`. -/
def getItemKey (item : FolderItem) : Option String :=
  if item.type == ItemType.website && truthyStr item.url then
    some ("website:" ++ item.url.getD "")
  else if item.type == ItemType.application && truthyStr item.path then
    some ("app:" ++ item.path.getD "")
  else if item.type == ItemType.folder && truthyStr item.folderId then
    some ("folder:" ++ item.folderId.getD "")
  else none

/-- The loop of `findDuplicateItems`: scan the items, keeping the first
occurrence of each key in order and counting later occurrences; the
`seen` JS `Set` is modelled by a list used only through membership. -/
def dedupGo : List FolderItem → List String → List FolderItem × Nat
  | [], _ => ([], 0)
  | item :: rest, seen =>
    match getItemKey item with
    | some key =>
      if seen.contains key then
        let r := dedupGo rest seen
        (r.1, r.2 + 1)
      else
        let r := dedupGo rest (key :: seen)
        (item :: r.1, r.2)
    | none =>
      let r := dedupGo rest seen
      (item :: r.1, r.2)

/-- Return type of `findDuplicateItems`. -/
structure DuplicateInfo where
  hasDuplicates : Bool
  duplicateCount : Nat
  uniqueItems : List FolderItem
deriving DecidableEq, Repr

/-- `findDuplicateItems` of `utils.ts`. -/
def findDuplicateItems (items : List FolderItem) : DuplicateInfo :=
  let r := dedupGo items []
  ⟨decide (0 < r.2), r.2, r.1⟩

/-! ## Sorter (`utils.ts`) -/

/-- Sort methods.  The fall-through cast `value as SortMethod` of
`parseSortPreference` can store an arbitrary string in the `method`
field; such a value compares as equal everywhere (the `switch` default)
and is modelled by the `other` constructor. -/
inductive SortMethod where
  | alphabetical
  | length
  | recent
  | none
  | other (value : String)
deriving DecidableEq, Repr

/-- Sort directions. -/
inductive SortDirection where
  | asc
  | desc
deriving DecidableEq, Repr

/-- `SortConfig` of `utils.ts`. -/
structure SortConfig where
  method : SortMethod
  direction : SortDirection
deriving DecidableEq, Repr

/-- Interpretation of a method string as a `SortMethod` value. -/
def strToMethod (s : String) : SortMethod :=
  if s = "alphabetical" then .alphabetical
  else if s = "length" then .length
  else if s = "recent" then .recent
  else if s = "none" then .none
  else .other s

/-- `parseSortPreference` of `utils.ts` (the memoization cache of the
source is semantically transparent and not modelled).  A `method-direction`
pair with a recognised method and direction is parsed into both parts;
anything else keeps the whole string as the method with ascending
direction. -/
def parseSortPreference (value : String) : SortConfig :=
  if value = "none" then ⟨.none, .asc⟩
  else
    let parts := jsSplit '-' value
    let method := (parts.get? 0).getD ""
    let direction := parts.get? 1
    if (method = "alphabetical" ∨ method = "length" ∨ method = "recent")
        ∧ (direction = some "asc" ∨ direction = some "desc") then
      ⟨strToMethod method, if direction = some "desc" then .desc else .asc⟩
    else
      ⟨strToMethod value, .asc⟩

/-- `localeCompare` of the source, modelled as code-point three-way
comparison. -/
def localeCompareInt (a b : String) : Int :=
  cmpChars a.data b.data

/-- `compare` of `utils.ts`: one comparison level.  `length` uses the
display-name length, `recent` compares timestamps newest-first before
the direction is applied, and a `desc` direction negates the result. -/
def compare {α : Type} (a b : α) (config : SortConfig)
    (getName : α → String) (getTime : α → Nat) : Int :=
  match config.method with
  | .none => 0
  | .other _ => 0
  | .alphabetical =>
    let result := localeCompareInt (getName a) (getName b)
    if config.direction = .desc then -result else result
  | .length =>
    let result : Int := ((getName a).data.length : Int) - ((getName b).data.length : Int)
    if config.direction = .desc then -result else result
  | .recent =>
    let result : Int := ((getTime b : Int)) - ((getTime a : Int))
    if config.direction = .desc then -result else result

/-- The comparator chain of `sortFolderItems`/`sortFolders`: apply each
level in order and return the first non-zero result. -/
def chainCompare {α : Type} (configs : List SortConfig)
    (getName : α → String) (getTime : α → Nat) (a b : α) : Int :=
  match configs with
  | [] => 0
  | c :: rest =>
    let result := compare a b c getName getTime
    if result ≠ 0 then result else chainCompare rest getName getTime a b

/-- The display name used by `sortFolderItems` when no application list
is supplied: the item's own stored name. -/
def itemGetName (i : FolderItem) : String := i.name

/-- The timestamp accessor of `sortFolderItems`: `i.lastUsed ?? 0`. -/
def itemGetTime (i : FolderItem) : Nat := i.lastUsed.getD 0

/-- `sortFolderItems` of `utils.ts` (without an application list).  If
all three levels are `none` a copy of the input is returned unsorted;
otherwise the items are sorted by the comparator chain.  The stable JS
`Array.prototype.sort` is modelled by the stable `List.mergeSort` with
the non-strict comparator `chainCompare … ≤ 0`. -/
def sortFolderItems (items : List FolderItem) (primary secondary tertiary : String) :
    List FolderItem :=
  let configs := [primary, secondary, tertiary].map parseSortPreference
  if configs.all (fun c => c.method == SortMethod.none) then items
  else
    items.mergeSort (fun a b =>
      decide (chainCompare configs itemGetName itemGetTime a b ≤ 0))

/-! ## URL collector (`utils.ts`) -/

/-- `CollectedUrl` of `utils.ts`. -/
structure CollectedUrl where
  url : String
  folderName : Option String := none
  depth : Nat
deriving DecidableEq, Repr

/-- Lookup in the `Map` built by `new Map(allFolders.map(f => [f.id, f]))`:
with duplicate ids the later entry wins, hence the search over the
reversed list. -/
def folderMapGet (allFolders : List Folder) (folderId : String) : Option Folder :=
  allFolders.reverse.find? (fun f => f.id == folderId)

/-- `collectFolderUrls` of `utils.ts`: recursively collect website URLs
from a folder and the folders it nests, guarded by the visited-id set
(threaded explicitly, as the JS `Set` is mutated in place and shared
across sibling recursive calls).  The recursion of the source
terminates because every call adds a new id to the visited set; here
that is expressed by a fuel argument, consumed once per nesting hop. -/
def collectFolderUrls (fuel : Nat) (folder : Folder) (allFolders : List Folder)
    (depth : Nat) (visited : List String) : List CollectedUrl × List String :=
  match fuel with
  | 0 => ([], visited)
  | fuel + 1 =>
    if visited.contains folder.id then ([], visited)
    else
      let visited1 := folder.id :: visited
      let here := folder.items.filterMap (fun item =>
        if item.type == ItemType.website && truthyStr item.url then
          some ⟨item.url.getD "", if 0 < depth then some folder.name else none, depth⟩
        else none)
      let nested := folder.items.foldl
        (fun (acc : List CollectedUrl × List String) item =>
          if item.type == ItemType.folder && truthyStr item.folderId then
            match folderMapGet allFolders (item.folderId.getD "") with
            | some nestedFolder =>
              let r := collectFolderUrls fuel nestedFolder allFolders (depth + 1) acc.2
              (acc.1 ++ r.1, r.2)
            | none => acc
          else acc)
        (([] : List CollectedUrl), visited1)
      (here ++ nested.1, nested.2)

/-- The exported entry point of `collectFolderUrls`: depth `0`, empty
visited set.  A fuel of `allFolders.length + 1` covers every chain of
nesting hops the visited-id guard can admit. -/
def collectFolderUrlsFromRoot (folder : Folder) (allFolders : List Folder) :
    List CollectedUrl :=
  (collectFolderUrls (allFolders.length + 1) folder allFolders 0 []).1

/-- One step of the rendering loop of `formatUrlsAsMarkdown`,
accumulating emitted lines and the currently open folder heading. -/
def markdownStep (showRoot : Bool) (acc : List String × Option String)
    (u : CollectedUrl) : List String × Option String :=
  let actualDepth := if showRoot then u.depth + 1 else u.depth
  let acc1 :=
    if decide (0 < u.depth) && truthyStr u.folderName && u.folderName != acc.2 then
      (acc.1 ++ [jsRepeat "  " (actualDepth - 1) ++ "- **" ++ u.folderName.getD "" ++ "**"],
        u.folderName)
    else acc
  (acc1.1 ++ [jsRepeat "  " actualDepth ++ "- " ++ u.url], acc1.2)

/-- `formatUrlsAsMarkdown` of `utils.ts`: indented markdown bullets; a
folder heading is emitted on entering a folder whose name differs from
the open heading, and the root name is shown only when nested URLs
exist and the root name is truthy. -/
def formatUrlsAsMarkdown (urls : List CollectedUrl) (rootFolderName : Option String) : String :=
  if urls.isEmpty then ""
  else
    let hasNestedUrls := urls.any (fun u => decide (0 < u.depth))
    let showRoot := hasNestedUrls && truthyStr rootFolderName
    let initLines : List String :=
      if showRoot then ["- **" ++ rootFolderName.getD "" ++ "**"] else []
    let r := urls.foldl (markdownStep showRoot) (initLines, none)
    String.intercalate "\n" r.1

/-- `formatUrlsAsList` of `utils.ts`: one URL per line, sorted by the
comparator `(a, b) => a.length - b.length`.  The stable JS sort is
modelled by the stable `List.mergeSort` under the non-strict
length comparator. -/
def formatUrlsAsList (urls : List CollectedUrl) : String :=
  if urls.isEmpty then ""
  else
    String.intercalate "\n"
      ((urls.map (fun u => u.url)).mergeSort (fun a b => decide (a.data.length ≤ b.data.length)))

/-- The flat-list renderer as the spec describes it: sorted ascending
by length with ties broken by natural string order.  Stated from the
spec's words, to be compared with `formatUrlsAsList`; `insertionSort`
with this total order realises exactly that description. -/
def formatUrlsAsListSpec (urls : List CollectedUrl) : String :=
  if urls.isEmpty then ""
  else
    String.intercalate "\n"
      ((urls.map (fun u => u.url)).insertionSort (fun a b =>
        a.data.length < b.data.length ∨ (a.data.length = b.data.length ∧ cmpChars a.data b.data ≤ 0)))

/-! ## Backup codec (`backup.ts`) -/

/-- The preference bundle included in export documents. -/
structure ExportedPreferences where
  folderContentsSortPrimary : Option String := none
  folderContentsSortSecondary : Option String := none
  folderContentsSortTertiary : Option String := none
  folderContentsViewType : Option String := none
  showPreviewPane : Option Bool := none
  gridSeparateSections : Option Bool := none
  defaultFolderColor : Option String := none
deriving DecidableEq, Repr

/-- `ExportData` of `backup.ts`. -/
structure ExportData where
  version : Nat
  exportedAt : String
  folders : List Folder
  preferences : Option ExportedPreferences := none
deriving DecidableEq, Repr

/-- The nested-folder ids referenced by a folder's items (the
`filter`/`map` pair of `getNestedFolders`). -/
def nestedFolderIds (f : Folder) : List String :=
  (f.items.filter (fun item => item.type == ItemType.folder && truthyStr item.folderId)).map
    (fun item => item.folderId.getD "")

/-- `getNestedFolders` of `backup.ts`: the folder itself followed by
the recursive expansion of each referenced folder, in item order.  The
source has no visited set and no deduplication; its recursion is
modelled with a fuel argument bounding the nesting depth (the source
diverges on cyclic data, which the nesting invariants forbid). -/
def getNestedFolders : Nat → Folder → List Folder → List Folder
  | 0, folder, _ => [folder]
  | fuel + 1, folder, allFolders =>
    folder :: (nestedFolderIds folder).flatMap (fun nestedId =>
      match allFolders.find? (fun f => f.id == nestedId) with
      | some nestedFolder => getNestedFolders fuel nestedFolder allFolders
      | none => [])

/-- The folder list of a single-folder export, with depth budget
`allFolders.length + 1` (enough for every acyclic collection). -/
def exportFolderFolders (folder : Folder) (allFolders : List Folder) : List Folder :=
  getNestedFolders (allFolders.length + 1) folder allFolders

/-- The pure content of `exportFolder` of `backup.ts`: the export
document it serialises (timestamp and preferences are inputs of the
embedding). -/
def exportFolderData (folder : Folder) (allFolders : List Folder)
    (exportedAt : String) (prefs : ExportedPreferences) : ExportData :=
  { version := 1
    exportedAt := exportedAt
    folders := exportFolderFolders folder allFolders
    preferences := some prefs }

/-- `g` is reachable from `f` in `k` nesting hops: each hop follows a
truthy folder-reference item of the current folder to the first folder
of the collection carrying the referenced id (the `find` of
`getNestedFolders`). -/
inductive NestedReach (allFolders : List Folder) : Folder → Nat → Folder → Prop where
  | refl (f : Folder) : NestedReach allFolders f 0 f
  | step {f g h : Folder} {k : Nat} (nestedId : String)
      (hmem : nestedId ∈ nestedFolderIds f)
      (hfind : allFolders.find? (fun x => x.id == nestedId) = some g)
      (htail : NestedReach allFolders g k h) : NestedReach allFolders f (k + 1) h

/-! ## Helper lemmas about the orphan reconciler -/

/-- Cleaning orphaned references never changes the list of folder ids. -/
theorem cleanup_map_id (folders : List Folder) :
    (cleanupOrphanedReferences folders).map (fun f => f.id) = folders.map (fun f => f.id) := by
  simp only [cleanupOrphanedReferences]
  split
  · rw [List.map_map]
    apply List.map_congr_left
    intro f _
    simp only [Function.comp_apply]
    split <;> rfl
  · rfl

/-- Every item surviving a cleanup that changed something is not an
orphaned reference (with respect to the original folder ids). -/
theorem cleanup_no_orphan (folders : List Folder) (f : Folder)
    (hf : f ∈ cleanupOrphanedReferences folders) (item : FolderItem) (hi : item ∈ f.items)
    (hch : cleanupHasChanges folders = true) :
    isOrphanRef (folders.map (fun g => g.id)) item = false := by
  simp only [cleanupOrphanedReferences, hch, if_true] at hf
  obtain ⟨f0, -, rfl⟩ := List.mem_map.mp hf
  by_cases hlen :
      (f0.items.filter (fun item =>
        !isOrphanRef (folders.map (fun f => f.id)) item)).length ≠ f0.items.length
  · rw [if_pos hlen] at hi
    simp only at hi
    have := (List.mem_filter.mp hi).2
    simpa using this
  · rw [if_neg hlen] at hi
    push_neg at hlen
    have heq := (List.filter_sublist f0.items).eq_of_length hlen
    have := (List.filter_eq_self.mp heq) item hi
    simpa using this

/-- If the cleanup pass found nothing to change, no stored item is an
orphaned reference. -/
theorem no_change_no_orphan (folders : List Folder) (hch : cleanupHasChanges folders = false)
    (f : Folder) (hf : f ∈ folders) (item : FolderItem) (hi : item ∈ f.items) :
    isOrphanRef (folders.map (fun g => g.id)) item = false := by
  unfold cleanupHasChanges at hch
  rw [List.any_eq_false] at hch
  have h1 := hch f hf
  rw [Bool.not_eq_true, List.any_eq_false] at h1
  have h2 := h1 item hi
  simpa using h2

/-- A non-orphaned folder-reference item with a truthy target id points
at an existing folder id. -/
theorem not_orphan_mem (ids : List String) (item : FolderItem)
    (h : isOrphanRef ids item = false) (htype : item.type = ItemType.folder)
    (fid : String) (hfid : item.folderId = some fid) (hne : fid ≠ "") : fid ∈ ids := by
  simp only [isOrphanRef, hfid, htype] at h
  simp only [beq_self_eq_true, Bool.true_and] at h
  rcases Bool.and_eq_false_iff.mp h with h' | h'
  · exact absurd (by simpa using h') hne
  · simpa using h'

/-! ## Claim C1 -/

/-- The property claim C1 asserts of a freshly loaded collection:
every folder-type item carries a `folderId` naming a folder of the
collection. -/
def allFolderRefsResolve (folders : List Folder) : Prop :=
  ∀ f ∈ folders, ∀ item ∈ f.items, item.type = ItemType.folder →
    ∃ g ∈ folders, item.folderId = some g.id

instance (folders : List Folder) : Decidable (allFolderRefsResolve folders) := by
  unfold allFolderRefsResolve
  infer_instance

/-- A folder-type item with no `folderId` at all (falsy in JS). -/
def c1Item : FolderItem := { id := "i1", name := "ref", type := ItemType.folder }

/-- A persisted folder containing `c1Item`. -/
def c1Folder : Folder := { id := "a", name := "A", items := [c1Item] }

/-- A store about to perform a fresh load of `[c1Folder]`. -/
def c1State : StoreState := ⟨none, some [c1Folder]⟩

/-- C1 as stated is false: a folder-type item whose `folderId` is
absent (or empty) is kept by the fresh-load cleanup — the JS filter
requires a truthy `item.folderId` before it tests membership — so the
loaded collection can contain a folder-type item that names no folder
at all. -/
theorem claim1_counterexample :
    (getFoldersRun c1State).state.cache = some (getFoldersRun c1State).result ∧
    ¬ allFolderRefsResolve (getFoldersRun c1State).result := by
  decide

/-- C1 amended: after a fresh load (empty cache) the returned
collection is adopted as the cache, and every folder-type item whose
`folderId` is present and non-empty names a folder that exists in the
returned collection.  (Folder-type items with an absent or empty
`folderId` are kept unchanged.) -/
theorem claim1_amended (stored : List Folder) :
    (getFoldersRun ⟨none, some stored⟩).state.cache =
      some (getFoldersRun ⟨none, some stored⟩).result ∧
    ∀ f ∈ (getFoldersRun ⟨none, some stored⟩).result, ∀ item ∈ f.items,
      item.type = ItemType.folder → ∀ fid, item.folderId = some fid → fid ≠ "" →
        fid ∈ (getFoldersRun ⟨none, some stored⟩).result.map (fun g => g.id) := by
  by_cases hch : cleanupHasChanges stored = true
  · have hres : (getFoldersRun ⟨none, some stored⟩).result = cleanupOrphanedReferences stored := by
      simp [getFoldersRun, hch]
    have hcache : (getFoldersRun ⟨none, some stored⟩).state.cache =
        some (cleanupOrphanedReferences stored) := by
      simp [getFoldersRun, hch]
    rw [hres, hcache]
    refine ⟨rfl, fun f hf item hi htype fid hfid hne => ?_⟩
    rw [cleanup_map_id]
    exact not_orphan_mem _ item (cleanup_no_orphan stored f hf item hi hch) htype fid hfid hne
  · rw [Bool.not_eq_true] at hch
    have hres : (getFoldersRun ⟨none, some stored⟩).result = stored := by
      simp [getFoldersRun, hch]
    have hcache : (getFoldersRun ⟨none, some stored⟩).state.cache = some stored := by
      simp [getFoldersRun, hch]
    rw [hres, hcache]
    refine ⟨rfl, fun f hf item hi htype fid hfid hne => ?_⟩
    exact not_orphan_mem _ item (no_change_no_orphan stored hch f hf item hi) htype fid hfid hne

/-- A folder-reference item targeting `b`, with a website item next to it. -/
def c1wFolderA : Folder :=
  { id := "a", name := "A"
    items := [{ id := "i1", name := "b-ref", type := ItemType.folder, folderId := some "b" },
              { id := "i2", name := "gone", type := ItemType.folder, folderId := some "zz" }] }

/-- The target folder `b`. -/
def c1wFolderB : Folder := { id := "b", name := "B", items := [] }

/-- `c1wFolderA` after the fresh-load cleanup dropped its orphaned item. -/
def c1wCleanedA : Folder :=
  { id := "a", name := "A"
    items := [{ id := "i1", name := "b-ref", type := ItemType.folder, folderId := some "b" }] }

/-- Witness for the amended C1 at a concrete fresh load that both keeps
a valid reference and drops an orphaned one. -/
theorem claim1_amended_witness :
    "b" ∈ (getFoldersRun ⟨none, some [c1wFolderA, c1wFolderB]⟩).result.map (fun g => g.id) :=
  (claim1_amended [c1wFolderA, c1wFolderB]).2 c1wCleanedA (by decide)
    { id := "i1", name := "b-ref", type := ItemType.folder, folderId := some "b" }
    (by decide) (by decide) "b" (by decide) (by decide)

/-! ## Claim C2 -/

/-- C2: deleting an existing folder removes, in a single save, the
folder itself and every folder-reference item targeting it, while all
other folders keep their identity and their remaining items: the
committed collection is exactly the original one with the deleted
folder filtered out and each survivor's items stripped of references
to it. -/
theorem claim2_deleteFolder (folders : List Folder) (blob : Option (List Folder))
    (folderId : String) (hX : folders.any (fun f => f.id == folderId) = true) :
    deleteFolderRun ⟨some folders, blob⟩ folderId =
      ⟨Except.ok (),
        ⟨some (deleteFolderUpdated folders folderId), some (deleteFolderUpdated folders folderId)⟩,
        [deleteFolderUpdated folders folderId]⟩ ∧
    (∀ f ∈ deleteFolderUpdated folders folderId, ¬ f.id = folderId) ∧
    (∀ f ∈ deleteFolderUpdated folders folderId, ∀ item ∈ f.items,
        ¬(item.type = ItemType.folder ∧ item.folderId = some folderId)) ∧
    (∀ f ∈ folders, ¬ f.id = folderId →
        { f with items := f.items.filter (fun item =>
            !(item.type == ItemType.folder && item.folderId == some folderId)) }
          ∈ deleteFolderUpdated folders folderId) := by
  refine ⟨?_, ?_, ?_, ?_⟩
  · simp [deleteFolderRun, getFoldersRun, hX]
  · intro f hf
    obtain ⟨f0, hf0, rfl⟩ := List.mem_map.mp hf
    have := (List.mem_filter.mp hf0).2
    simpa using this
  · intro f hf item hi
    obtain ⟨f0, -, rfl⟩ := List.mem_map.mp hf
    simp only at hi
    have hkeep := (List.mem_filter.mp hi).2
    rintro ⟨ht, hfid⟩
    simp [ht, hfid] at hkeep
  · intro f hf hne
    apply List.mem_map.mpr
    refine ⟨f, List.mem_filter.mpr ⟨hf, by simpa using hne⟩, rfl⟩

/-- Folder `x`, nested inside `y`. -/
def c2FolderX : Folder := { id := "x", name := "X", items := [] }

/-- Folder `y`, holding a folder-reference item targeting `x` and a
website item. -/
def c2FolderY : Folder :=
  { id := "y", name := "Y"
    items := [{ id := "iy1", name := "x-ref", type := ItemType.folder, folderId := some "x" },
              { id := "iy2", name := "w", type := ItemType.website, url := some "https://a.io" }] }

/-- Witness for C2: deleting `x` from `[y, x]` commits, in one write,
the collection without `x` and without `y`'s reference to it. -/
theorem claim2_deleteFolder_witness :
    deleteFolderRun ⟨some [c2FolderY, c2FolderX], none⟩ "x" =
      ⟨Except.ok (),
        ⟨some (deleteFolderUpdated [c2FolderY, c2FolderX] "x"),
          some (deleteFolderUpdated [c2FolderY, c2FolderX] "x")⟩,
        [deleteFolderUpdated [c2FolderY, c2FolderX] "x"]⟩ :=
  (claim2_deleteFolder [c2FolderY, c2FolderX] none "x" (by decide)).1

/-! ## Claim C9 -/

/-- C9: with the collection `c` loaded, a direct mutation against a
missing folder id fails and reports the failure (`updateFolder`
errors), while the access recorders are best-effort: a missing folder
id (or, for `recordItemAccess`, a missing item id inside an existing
folder) returns normally, leaves the state untouched and issues no
write. -/
theorem claim9_notfound (c : List Folder) (blob : Option (List Folder))
    (folderId itemId : String) (now : Nat) (updates : FolderUpdates)
    (hmiss : c.findIdx? (fun f => f.id == folderId) = none) :
    updateFolderRun ⟨some c, blob⟩ folderId updates =
      ⟨Except.error ("Folder not found: " ++ folderId), ⟨some c, blob⟩, []⟩ ∧
    recordFolderAccessRun ⟨some c, blob⟩ folderId now = ⟨(), ⟨some c, blob⟩, []⟩ ∧
    recordItemAccessRun ⟨some c, blob⟩ folderId itemId now = ⟨(), ⟨some c, blob⟩, []⟩ ∧
    (∀ gid idx g, c.findIdx? (fun f => f.id == gid) = some idx → c.get? idx = some g →
        g.items.findIdx? (fun i => i.id == itemId) = none →
        recordItemAccessRun ⟨some c, blob⟩ gid itemId now = ⟨(), ⟨some c, blob⟩, []⟩) := by
  refine ⟨?_, ?_, ?_, ?_⟩
  · simp [updateFolderRun, getFoldersRun, hmiss]
  · simp [recordFolderAccessRun, getFoldersRun, hmiss]
  · simp [recordItemAccessRun, getFoldersRun, hmiss]
  · intro gid idx g hfind hget hitem
    have hget' : getElem? c idx = some g := by simpa [List.get?_eq_getElem?] using hget
    simp [recordItemAccessRun, getFoldersRun, hfind, hget', hitem]

/-- A one-folder collection for the C9 witness. -/
def c9Folder : Folder :=
  { id := "a", name := "A"
    items := [{ id := "w1", name := "w", type := ItemType.website, url := some "https://a.io" }] }

/-- Witness for C9: `updateFolder` on the missing id `zz` reports the
failure and changes nothing. -/
theorem claim9_notfound_witness :
    updateFolderRun ⟨some [c9Folder], none⟩ "zz" {} =
      ⟨Except.error ("Folder not found: " ++ "zz"), ⟨some [c9Folder], none⟩, []⟩ :=
  (claim9_notfound [c9Folder] none "zz" "ii" 5 {} (by decide)).1

/-! ## Claim C10 -/

/-- A persisted folder carrying an orphaned folder reference. -/
def c10Folder : Folder :=
  { id := "a", name := "A"
    items := [{ id := "i1", name := "ref", type := ItemType.folder, folderId := some "zz" }] }

/-- A store with a cold cache over that blob. -/
def c10State : StoreState := ⟨none, some [c10Folder]⟩

/-- C10 as stated is false: when `updateFolder` is called with a
missing folder id while the cache is cold and the blob holds orphaned
references, the embedded `getFolders` load performs the
orphan-reconciliation write before the id check throws — so the call
does write, and the persisted blob is not what it was before the
call. -/
theorem claim10_counterexample :
    (updateFolderRun c10State "b" {}).result = Except.error "Folder not found: b" ∧
    (updateFolderRun c10State "b" {}).writes ≠ [] ∧
    (updateFolderRun c10State "b" {}).state.blob ≠ c10State.blob := by
  decide

/-- C10 amended: `updateFolder` and `deleteFolder` with a missing
folder id throw without performing their mutation's write: the final
state and the writes issued are exactly those of the embedded
`getFolders` load.  In particular, with a warm cache the state is
untouched and no write at all is issued; a cold load may still perform
its orphan-reconciliation write. -/
theorem claim10_amended (s : StoreState) (folderId : String) (updates : FolderUpdates)
    (hmiss : ∀ f ∈ (getFoldersRun s).result, ¬ f.id = folderId) :
    updateFolderRun s folderId updates =
      ⟨Except.error ("Folder not found: " ++ folderId),
        (getFoldersRun s).state, (getFoldersRun s).writes⟩ ∧
    deleteFolderRun s folderId =
      ⟨Except.error ("Folder not found: " ++ folderId),
        (getFoldersRun s).state, (getFoldersRun s).writes⟩ ∧
    (∀ cached, s.cache = some cached →
        (getFoldersRun s).state = s ∧ (getFoldersRun s).writes = []) := by
  have hfind : (getFoldersRun s).result.findIdx? (fun f => f.id == folderId) = none := by
    rw [List.findIdx?_eq_none_iff]
    intro f hf
    simpa using hmiss f hf
  have hany : (getFoldersRun s).result.any (fun f => f.id == folderId) = false := by
    rw [List.any_eq_false]
    intro f hf
    simpa using hmiss f hf
  refine ⟨?_, ?_, ?_⟩
  · simp [updateFolderRun, hfind]
  · simp [deleteFolderRun, hany]
  · intro cached hc
    simp [getFoldersRun, hc]

/-- Witness for the amended C10: with a warm cache over `[c9Folder]`,
the failing `deleteFolder` leaves state and writes exactly as the (no
op) load produced them. -/
theorem claim10_amended_witness :
    deleteFolderRun ⟨some [c9Folder], none⟩ "zz" =
      ⟨Except.error ("Folder not found: " ++ "zz"),
        (getFoldersRun ⟨some [c9Folder], none⟩).state,
        (getFoldersRun ⟨some [c9Folder], none⟩).writes⟩ :=
  (claim10_amended ⟨some [c9Folder], none⟩ "zz" {} (by decide)).2.1

/-! ## Deduplicator lemmas -/

/-- Unfolding of the scan at a keyless head. -/
theorem dedupGo_cons_none {item : FolderItem} {rest : List FolderItem} {seen : List String}
    (hk : getItemKey item = none) :
    dedupGo (item :: rest) seen = (item :: (dedupGo rest seen).1, (dedupGo rest seen).2) := by
  simp [dedupGo, hk]

/-- Unfolding of the scan at a head whose key was already seen. -/
theorem dedupGo_cons_seen {item : FolderItem} {rest : List FolderItem} {seen : List String}
    {k : String} (hk : getItemKey item = some k) (hc : seen.contains k = true) :
    dedupGo (item :: rest) seen = ((dedupGo rest seen).1, (dedupGo rest seen).2 + 1) := by
  have hc' : k ∈ seen := by simpa using hc
  simp [dedupGo, hk, hc']

/-- Unfolding of the scan at a head with a fresh key. -/
theorem dedupGo_cons_new {item : FolderItem} {rest : List FolderItem} {seen : List String}
    {k : String} (hk : getItemKey item = some k) (hc : seen.contains k = false) :
    dedupGo (item :: rest) seen =
      (item :: (dedupGo rest (k :: seen)).1, (dedupGo rest (k :: seen)).2) := by
  simp only [dedupGo, hk, hc, Bool.false_eq_true, if_false]

/-- The keys of the kept items are pairwise distinct and avoid the
`seen` set. -/
theorem dedupGo_keys (items : List FolderItem) : ∀ seen : List String,
    ((dedupGo items seen).1.filterMap getItemKey).Nodup ∧
    ∀ k ∈ (dedupGo items seen).1.filterMap getItemKey, k ∉ seen := by
  induction items with
  | nil => intro seen; simp [dedupGo]
  | cons item rest ih =>
    intro seen
    rcases hk : getItemKey item with - | k
    · rw [dedupGo_cons_none hk]
      simpa [List.filterMap_cons_none hk] using ih seen
    · by_cases hc : seen.contains k = true
      · rw [dedupGo_cons_seen hk hc]
        exact ih seen
      · rw [Bool.not_eq_true] at hc
        rw [dedupGo_cons_new hk hc]
        dsimp only
        have ihk := ih (k :: seen)
        rw [List.filterMap_cons_some hk]
        refine ⟨?_, ?_⟩
        · exact List.Nodup.cons
            (fun hmem => absurd (List.mem_cons_self k seen) (ihk.2 k hmem)) ihk.1
        · intro k' hmem
          rcases List.mem_cons.mp hmem with rfl | hmem'
          · simpa using hc
          · exact fun hs => (ihk.2 k' hmem') (List.mem_cons_of_mem _ hs)

/-- On a list whose keyed items already have pairwise distinct keys,
none of which is in the `seen` set, the scan keeps everything and
counts no duplicate. -/
theorem dedupGo_of_nodup (items : List FolderItem) : ∀ seen : List String,
    (items.filterMap getItemKey).Nodup →
    (∀ k ∈ items.filterMap getItemKey, k ∉ seen) →
    dedupGo items seen = (items, 0) := by
  induction items with
  | nil => intro seen _ _; rfl
  | cons item rest ih =>
    intro seen hnd hdisj
    rcases hk : getItemKey item with - | k
    · rw [List.filterMap_cons_none hk] at hnd hdisj
      rw [dedupGo_cons_none hk, ih seen hnd hdisj]
    · rw [List.filterMap_cons_some hk] at hnd hdisj
      have hkseen : k ∉ seen := hdisj k (List.mem_cons_self k _)
      have hc : seen.contains k = false := by simpa using hkseen
      have htail : dedupGo rest (k :: seen) = (rest, 0) := by
        refine ih (k :: seen) hnd.of_cons ?_
        intro k' hk'
        have hne : k' ≠ k := by
          intro e
          exact (List.nodup_cons.mp hnd).1 (e ▸ hk')
        have hns : k' ∉ seen := hdisj k' (List.mem_cons_of_mem _ hk')
        simp [hne, hns]
      rw [dedupGo_cons_new hk hc, htail]

/-! ## Claim C4 -/

/-- C4: the deduplicator is idempotent — applied to its own
`uniqueItems` output it reports `hasDuplicates = false`, a duplicate
count of zero, and returns that very list unchanged. -/
theorem claim4_dedup_idempotent (items : List FolderItem) :
    findDuplicateItems ((findDuplicateItems items).uniqueItems) =
      ⟨false, 0, (findDuplicateItems items).uniqueItems⟩ := by
  have hkeys := dedupGo_keys items []
  have h := dedupGo_of_nodup (dedupGo items []).1 [] hkeys.1 (by intro k _; simp)
  simp [findDuplicateItems, h]

/-! ## Claim C3 -/

/-- A website item stored with a scheme-less URL. -/
def c3Web1 : FolderItem := { id := "1", name := "one", type := ItemType.website, url := some "x.com" }

/-- A website item stored with the same URL written with its scheme. -/
def c3Web2 : FolderItem :=
  { id := "2", name := "two", type := ItemType.website, url := some "https://x.com" }

/-- Another website item with the same stored URL as `c3Web2`. -/
def c3Web3 : FolderItem :=
  { id := "3", name := "three", type := ItemType.website, url := some "https://x.com" }

/-- C3 as stated is false: `"x.com"` and `"https://x.com"` normalize to
the same URL, yet the deduplicator keys website items by the stored URL
verbatim (`website:` + `item.url`, without `normalizeUrl`), so the
later item is not counted as a duplicate and both are kept. -/
theorem claim3_counterexample :
    normalizeUrl "x.com" = normalizeUrl "https://x.com" ∧
    normalizeUrl "x.com" = "https://x.com" ∧
    (findDuplicateItems [c3Web1, c3Web2]).duplicateCount = 0 ∧
    (findDuplicateItems [c3Web1, c3Web2]).uniqueItems = [c3Web1, c3Web2] := by
  decide

/-- C3 amended: the identity key of a website item is its stored URL
verbatim (not its normalization); application items are keyed by path,
folder-reference items by target folder id; two items are deduplicated
exactly when their keys are present and equal, and an item lacking its
applicable key is never treated as a duplicate. -/
theorem claim3_amended (i1 i2 : FolderItem) :
    (∀ u, i1.type = ItemType.website → i1.url = some u → u ≠ "" →
        getItemKey i1 = some ("website:" ++ u)) ∧
    (∀ p, i1.type = ItemType.application → i1.path = some p → p ≠ "" →
        getItemKey i1 = some ("app:" ++ p)) ∧
    (∀ fid, i1.type = ItemType.folder → i1.folderId = some fid → fid ≠ "" →
        getItemKey i1 = some ("folder:" ++ fid)) ∧
    (∀ k, getItemKey i1 = some k → getItemKey i2 = some k →
        findDuplicateItems [i1, i2] = ⟨true, 1, [i1]⟩) ∧
    (getItemKey i2 ≠ getItemKey i1 ∨ getItemKey i2 = none →
        findDuplicateItems [i1, i2] = ⟨false, 0, [i1, i2]⟩) := by
  refine ⟨?_, ?_, ?_, ?_, ?_⟩
  · intro u ht hu hne
    simp [getItemKey, ht, hu, truthyStr, hne]
  · intro p ht hp hne
    simp [getItemKey, ht, hp, truthyStr, hne]
  · intro fid ht hfid hne
    simp [getItemKey, ht, hfid, truthyStr, hne]
  · intro k hk1 hk2
    simp [findDuplicateItems, dedupGo, hk1, hk2]
  · intro h
    rcases hk1 : getItemKey i1 with - | k1 <;> rcases hk2 : getItemKey i2 with - | k2
    · simp [findDuplicateItems, dedupGo, hk1, hk2]
    · simp [findDuplicateItems, dedupGo, hk1, hk2]
    · simp [findDuplicateItems, dedupGo, hk1, hk2]
    · have hne : k2 ≠ k1 := by
        rcases h with h | h
        · intro e
          rw [hk2, hk1, e] at h
          exact h rfl
        · rw [hk2] at h
          cases h
      simp [findDuplicateItems, dedupGo, hk1, hk2, hne]

/-- Witness for the amended C3: two website items with the identical
stored URL are deduplicated down to the first. -/
theorem claim3_amended_witness :
    findDuplicateItems [c3Web2, c3Web3] = ⟨true, 1, [c3Web2]⟩ :=
  (claim3_amended c3Web2 c3Web3).2.2.2.1 ("website:" ++ "https://x.com") (by decide) (by decide)

/-! ## Claim C6 -/

/-- Folder `B`, holding one website item. -/
def c6FolderB : Folder :=
  { id := "b", name := "B"
    items := [{ id := "i2", name := "x", type := ItemType.website, url := some "https://x.com" }] }

/-- Folder `A`, holding one folder-reference item targeting `B`. -/
def c6FolderA : Folder :=
  { id := "a", name := "A"
    items := [{ id := "i1", name := "B", type := ItemType.folder, folderId := some "b" }] }

/-- C6: on the two-folder example the collector returns exactly one
record — url `https://x.com`, origin folder name `B`, depth `1` — and
the markdown renderer with root name `A` produces exactly the expected
three-line bullet list. -/
theorem claim6_collect_markdown :
    collectFolderUrlsFromRoot c6FolderA [c6FolderA, c6FolderB] =
      [{ url := "https://x.com", folderName := some "B", depth := 1 }] ∧
    formatUrlsAsMarkdown (collectFolderUrlsFromRoot c6FolderA [c6FolderA, c6FolderB]) (some "A") =
      "- **A**\n  - **B**\n    - https://x.com" := by
  decide

/-! ## Backup codec lemmas -/

/-- The exported list always starts with the requested folder. -/
theorem getNestedFolders_head (fuel : Nat) (folder : Folder) (allFolders : List Folder) :
    (getNestedFolders fuel folder allFolders).head? = some folder := by
  cases fuel <;> rfl

/-- Completeness of the export walk: every folder reachable within the
depth budget appears in the result. -/
theorem nestedReach_mem_getNestedFolders (allFolders : List Folder) {k : Nat}
    {f g : Folder} (h : NestedReach allFolders f k g) :
    ∀ fuel : Nat, k < fuel → g ∈ getNestedFolders fuel f allFolders := by
  induction h with
  | refl f =>
    intro fuel hfuel
    match fuel, hfuel with
    | fuel + 1, _ => exact List.mem_cons_self _ _
  | step nestedId hmem hfind htail ih =>
    intro fuel hfuel
    match fuel, hfuel with
    | fuel + 1, hfuel =>
      apply List.mem_cons_of_mem
      apply List.mem_flatMap.mpr
      refine ⟨nestedId, hmem, ?_⟩
      rw [hfind]
      exact ih fuel (Nat.lt_of_succ_lt_succ hfuel)

/-- Soundness of the export walk: everything in the result is reachable
from the requested folder. -/
theorem mem_getNestedFolders_nestedReach (allFolders : List Folder) :
    ∀ (fuel : Nat) (f g : Folder), g ∈ getNestedFolders fuel f allFolders →
      ∃ k, NestedReach allFolders f k g := by
  intro fuel
  induction fuel with
  | zero =>
    intro f g hg
    rw [show getNestedFolders 0 f allFolders = [f] from rfl] at hg
    rcases List.mem_singleton.mp hg with rfl
    exact ⟨0, NestedReach.refl _⟩
  | succ fuel ih =>
    intro f g hg
    rcases List.mem_cons.mp hg with rfl | hg'
    · exact ⟨0, NestedReach.refl _⟩
    · obtain ⟨nestedId, hmem, hgIn⟩ := List.mem_flatMap.mp hg'
      rcases hfind : allFolders.find? (fun x => x.id == nestedId) with - | nestedFolder
      · rw [hfind] at hgIn
        cases hgIn
      · rw [hfind] at hgIn
        obtain ⟨k, hk⟩ := ih nestedFolder g hgIn
        exact ⟨k + 1, NestedReach.step nestedId hmem hfind hk⟩

/-! ## Claim C8 -/

/-- Leaf folder `b`. -/
def c8FolderB : Folder := { id := "b", name := "B", items := [] }

/-- Folder `a` referencing `b` twice (so `b` is reachable by two paths). -/
def c8FolderA : Folder :=
  { id := "a", name := "A"
    items := [{ id := "r1", name := "b1", type := ItemType.folder, folderId := some "b" },
              { id := "r2", name := "b2", type := ItemType.folder, folderId := some "b" }] }

/-- C8 as stated is false: `getNestedFolders` performs no
deduplication, so a folder reachable from the root by two different
folder-reference items appears twice in the export's `folders` field. -/
theorem claim8_counterexample :
    (exportFolderData c8FolderA [c8FolderA, c8FolderB] "t" {}).folders =
      [c8FolderA, c8FolderB, c8FolderB] ∧
    ((exportFolderData c8FolderA [c8FolderA, c8FolderB] "t" {}).folders.count c8FolderB) = 2 := by
  decide

/-- C8 amended: the single-folder export's `folders` field starts with
the root folder and contains exactly the folders reachable from it
through folder-reference items — every folder reachable in at most
`allFolders.length` hops appears (which covers the full transitive
closure on acyclic collections), and everything that appears is
reachable — but it is not deduplicated: a folder reachable by more
than one path appears once per path. -/
theorem claim8_amended (folder : Folder) (allFolders : List Folder)
    (exportedAt : String) (prefs : ExportedPreferences) :
    (exportFolderData folder allFolders exportedAt prefs).version = 1 ∧
    (exportFolderData folder allFolders exportedAt prefs).folders.head? = some folder ∧
    (∀ g k, NestedReach allFolders folder k g → k ≤ allFolders.length →
        g ∈ (exportFolderData folder allFolders exportedAt prefs).folders) ∧
    (∀ g, g ∈ (exportFolderData folder allFolders exportedAt prefs).folders →
        ∃ k, NestedReach allFolders folder k g) := by
  refine ⟨rfl, getNestedFolders_head _ _ _, ?_, ?_⟩
  · intro g k hreach hk
    exact nestedReach_mem_getNestedFolders allFolders hreach (allFolders.length + 1)
      (Nat.lt_succ_of_le hk)
  · intro g hg
    exact mem_getNestedFolders_nestedReach allFolders (allFolders.length + 1) folder g hg

/-- Witness for the amended C8: in the concrete two-folder collection,
`b` (reachable in one hop) is in the export of `a`. -/
theorem claim8_amended_witness :
    c8FolderB ∈ (exportFolderData c8FolderA [c8FolderA, c8FolderB] "t" {}).folders :=
  (claim8_amended c8FolderA [c8FolderA, c8FolderB] "t" {}).2.2.1 c8FolderB 1
    (NestedReach.step "b" (by decide) (by decide) (NestedReach.refl c8FolderB)) (by decide)

/-! ## Claim C7 -/

/-- Two one-character URLs whose traversal order is the reverse of
their string order. -/
def c7Urls : List CollectedUrl := [⟨"b", none, 0⟩, ⟨"a", none, 0⟩]

/-- C7 as stated is false: the comparator of `formatUrlsAsList` is
`a.length - b.length` only, and the JS sort is stable, so two URLs of
equal length keep their original relative order instead of being
ordered by natural string order — on `["b", "a"]` the code emits
`"b\na"` while the claim demands `"a\nb"`. -/
theorem claim7_counterexample :
    formatUrlsAsList c7Urls = "b\na" ∧
    formatUrlsAsListSpec c7Urls = "a\nb" ∧
    formatUrlsAsList c7Urls ≠ formatUrlsAsListSpec c7Urls := by
  have h1 : (["b", "a"] : List String).mergeSort
      (fun a b => decide (a.data.length ≤ b.data.length)) = ["b", "a"] :=
    List.mergeSort_of_sorted (by decide)
  have e1 : formatUrlsAsList c7Urls =
      String.intercalate "\n" ((["b", "a"] : List String).mergeSort
        (fun a b => decide (a.data.length ≤ b.data.length))) := rfl
  have hcode : formatUrlsAsList c7Urls = "b\na" := by
    rw [e1, h1]
    decide
  have hspec : formatUrlsAsListSpec c7Urls = "a\nb" := by decide
  refine ⟨hcode, hspec, ?_⟩
  rw [hcode, hspec]
  decide

/-- C7 amended: the flat-list renderer emits every collected URL on its
own line, ordered ascending by string length; two URLs of equal length
keep their original relative order (the sort is stable on ties, which
are not re-ordered by string order). -/
theorem claim7_amended (urls : List CollectedUrl) :
    ∃ lines : List String,
      formatUrlsAsList urls = String.intercalate "\n" lines ∧
      lines.Perm (urls.map (fun u => u.url)) ∧
      lines.Pairwise (fun a b => a.data.length ≤ b.data.length) ∧
      ∀ a b : String, a.data.length = b.data.length →
        List.Sublist [a, b] (urls.map (fun u => u.url)) → List.Sublist [a, b] lines := by
  have htrans : ∀ a b c : String,
      (fun a b : String => decide (a.data.length ≤ b.data.length)) a b →
      (fun a b : String => decide (a.data.length ≤ b.data.length)) b c →
      (fun a b : String => decide (a.data.length ≤ b.data.length)) a c := by
    intro a b c hab hbc
    simp only [decide_eq_true_iff] at hab hbc ⊢
    omega
  have htotal : ∀ a b : String,
      ((fun a b : String => decide (a.data.length ≤ b.data.length)) a b ||
       (fun a b : String => decide (a.data.length ≤ b.data.length)) b a) = true := by
    intro a b
    simp only [Bool.or_eq_true, decide_eq_true_iff]
    exact Nat.le_total a.data.length b.data.length
  refine ⟨(urls.map (fun u => u.url)).mergeSort
      (fun a b => decide (a.data.length ≤ b.data.length)), ?_, ?_, ?_, ?_⟩
  · by_cases h : urls.isEmpty = true
    · have hnil : urls = [] := List.isEmpty_iff.mp h
      subst hnil
      simp only [formatUrlsAsList, List.map_nil, List.mergeSort_nil]
      decide
    · rw [Bool.not_eq_true] at h
      simp [formatUrlsAsList, h]
  · exact List.mergeSort_perm _ _
  · have hp := List.sorted_mergeSort htrans htotal (urls.map (fun u => u.url))
    exact hp.imp (fun h => by simpa using h)
  · intro a b hlen hsub
    exact List.pair_sublist_mergeSort htrans htotal (by simp [hlen]) hsub

/-- Witness for the amended C7 at the concrete two-URL input. -/
theorem claim7_amended_witness :
    ∃ lines : List String,
      formatUrlsAsList c7Urls = String.intercalate "\n" lines ∧
      lines.Perm (c7Urls.map (fun u => u.url)) ∧
      lines.Pairwise (fun a b => a.data.length ≤ b.data.length) ∧
      ∀ a b : String, a.data.length = b.data.length →
        List.Sublist [a, b] (c7Urls.map (fun u => u.url)) → List.Sublist [a, b] lines :=
  claim7_amended c7Urls

/-! ## Order theory of the comparator chain -/

/-- `cmpChars` only takes the values `-1`, `0` and `1`. -/
theorem cmpChars_trichotomy : ∀ xs ys : List Char,
    cmpChars xs ys = -1 ∨ cmpChars xs ys = 0 ∨ cmpChars xs ys = 1
  | [], [] => Or.inr (Or.inl rfl)
  | [], _ :: _ => Or.inl rfl
  | _ :: _, [] => Or.inr (Or.inr rfl)
  | a :: as, b :: bs => by
    simp only [cmpChars]
    split
    · exact Or.inl rfl
    · split
      · exact Or.inr (Or.inr rfl)
      · exact cmpChars_trichotomy as bs

/-- `cmpChars` is antisymmetric: swapping the arguments negates it. -/
theorem cmpChars_antisym : ∀ xs ys : List Char, cmpChars xs ys = -(cmpChars ys xs)
  | [], [] => rfl
  | [], c :: cs => by simp [cmpChars]
  | c :: cs, [] => by simp [cmpChars]
  | a :: as, b :: bs => by
    simp only [cmpChars]
    rcases lt_trichotomy a b with h | h | h
    · rw [if_pos h, if_neg (lt_asymm h), if_pos h]
    · subst h
      rw [if_neg (lt_irrefl a), if_neg (lt_irrefl a), if_neg (lt_irrefl a),
        if_neg (lt_irrefl a)]
      exact cmpChars_antisym as bs
    · rw [if_neg (lt_asymm h), if_pos h, if_pos h]
      decide

/-- `cmpChars` vanishes exactly on equal lists. -/
theorem cmpChars_eq_zero : ∀ xs ys : List Char, cmpChars xs ys = 0 ↔ xs = ys
  | [], [] => by simp [cmpChars]
  | [], c :: cs => by simp [cmpChars]
  | c :: cs, [] => by simp [cmpChars]
  | a :: as, b :: bs => by
    simp only [cmpChars]
    rcases lt_trichotomy a b with h | h | h
    · rw [if_pos h]
      constructor
      · intro h'
        exact absurd h' (by decide)
      · intro h'
        injection h' with h1 h2
        exact absurd h1 (ne_of_lt h)
    · subst h
      rw [if_neg (lt_irrefl a), if_neg (lt_irrefl a)]
      rw [cmpChars_eq_zero as bs]
      simp
    · rw [if_neg (lt_asymm h), if_pos h]
      constructor
      · intro h'
        exact absurd h' (by decide)
      · intro h'
        injection h' with h1 h2
        exact absurd h1 (ne_of_gt h)

/-- Strict transitivity of `cmpChars`. -/
theorem cmpChars_neg_trans : ∀ xs ys zs : List Char,
    cmpChars xs ys = -1 → cmpChars ys zs = -1 → cmpChars xs zs = -1
  | [], ys, zs => by
    intro h1 h2
    cases ys with
    | nil => cases h1
    | cons y ys' =>
      cases zs with
      | nil => cases h2
      | cons z zs' => rfl
  | x :: xs', ys, zs => by
    intro h1 h2
    cases ys with
    | nil => cases h1
    | cons y ys' =>
      cases zs with
      | nil => cases h2
      | cons z zs' =>
        simp only [cmpChars] at h1 h2 ⊢
        rcases lt_trichotomy x y with hxy | hxy | hxy
        · rcases lt_trichotomy y z with hyz | hyz | hyz
          · rw [if_pos (lt_trans hxy hyz)]
          · subst hyz
            rw [if_pos hxy]
          · rw [if_neg (lt_asymm hyz), if_pos hyz] at h2
            cases h2
        · subst hxy
          rcases lt_trichotomy x z with hxz | hxz | hxz
          · rw [if_pos hxz]
          · subst hxz
            rw [if_neg (lt_irrefl x), if_neg (lt_irrefl x)] at h1 h2 ⊢
            exact cmpChars_neg_trans xs' ys' zs' h1 h2
          · rw [if_neg (lt_asymm hxz), if_pos hxz] at h2
            cases h2
        · rw [if_neg (lt_asymm hxy), if_pos hxy] at h1
          cases h1

/-- Transitivity of `cmpChars` on the positive side. -/
theorem cmpChars_pos_trans (xs ys zs : List Char)
    (h1 : cmpChars xs ys = 1) (h2 : cmpChars ys zs = 1) : cmpChars xs zs = 1 := by
  have a1 := cmpChars_antisym xs ys
  have a2 := cmpChars_antisym ys zs
  have a3 := cmpChars_antisym xs zs
  have hzy : cmpChars zs ys = -1 := by omega
  have hyx : cmpChars ys xs = -1 := by omega
  have := cmpChars_neg_trans zs ys xs hzy hyx
  omega

/-- One comparison level is antisymmetric. -/
theorem compare_antisym {α : Type} (cfg : SortConfig) (gn : α → String) (gt : α → Nat)
    (a b : α) : compare a b cfg gn gt = -(compare b a cfg gn gt) := by
  rcases cfg with ⟨m, d⟩
  have h := cmpChars_antisym (gn a).data (gn b).data
  cases m <;> cases d <;> simp [compare, localeCompareInt] <;> omega

/-- The four composition laws a comparison level satisfies: a total
preorder presented through its integer comparator. -/
theorem compare_comp {α : Type} (cfg : SortConfig) (gn : α → String) (gt : α → Nat)
    (a b c : α) :
    (compare a b cfg gn gt < 0 → compare b c cfg gn gt < 0 → compare a c cfg gn gt < 0) ∧
    (compare a b cfg gn gt = 0 → compare b c cfg gn gt = 0 → compare a c cfg gn gt = 0) ∧
    (compare a b cfg gn gt < 0 → compare b c cfg gn gt = 0 → compare a c cfg gn gt < 0) ∧
    (compare a b cfg gn gt = 0 → compare b c cfg gn gt < 0 → compare a c cfg gn gt < 0) := by
  rcases cfg with ⟨m, d⟩
  have tAB := cmpChars_trichotomy (gn a).data (gn b).data
  have tBC := cmpChars_trichotomy (gn b).data (gn c).data
  have tAC := cmpChars_trichotomy (gn a).data (gn c).data
  have eAB := cmpChars_eq_zero (gn a).data (gn b).data
  have eBC := cmpChars_eq_zero (gn b).data (gn c).data
  have eAC := cmpChars_eq_zero (gn a).data (gn c).data
  cases m with
  | alphabetical =>
    cases d with
    | asc =>
      simp only [compare, localeCompareInt,
        if_neg (by decide : ¬ (SortDirection.asc = SortDirection.desc))]
      refine ⟨?_, ?_, ?_, ?_⟩
      · intro h1 h2
        have hx : cmpChars (gn a).data (gn b).data = -1 := by
          rcases tAB with h | h | h <;> omega
        have hy : cmpChars (gn b).data (gn c).data = -1 := by
          rcases tBC with h | h | h <;> omega
        have := cmpChars_neg_trans _ _ _ hx hy
        omega
      · intro h1 h2
        exact eAC.mpr ((eAB.mp h1).trans (eBC.mp h2))
      · intro h1 h2
        rw [← eBC.mp h2]
        exact h1
      · intro h1 h2
        rw [eAB.mp h1]
        exact h2
    | desc =>
      simp only [compare, localeCompareInt, eq_self_iff_true, if_true]
      refine ⟨?_, ?_, ?_, ?_⟩
      · intro h1 h2
        have hx : cmpChars (gn a).data (gn b).data = 1 := by
          rcases tAB with h | h | h <;> omega
        have hy : cmpChars (gn b).data (gn c).data = 1 := by
          rcases tBC with h | h | h <;> omega
        have := cmpChars_pos_trans _ _ _ hx hy
        omega
      · intro h1 h2
        have := eAC.mpr ((eAB.mp (by omega)).trans (eBC.mp (by omega)))
        omega
      · intro h1 h2
        have hbc := eBC.mp (by omega)
        rw [← hbc]
        exact h1
      · intro h1 h2
        have hab := eAB.mp (by omega)
        rw [hab]
        exact h2
  | length => cases d <;> simp [compare] <;> omega
  | recent => cases d <;> simp [compare] <;> omega
  | none => simp [compare]
  | other s => simp [compare]

/-- The comparator chain is antisymmetric. -/
theorem chainCompare_antisym {α : Type} (configs : List SortConfig) (gn : α → String)
    (gt : α → Nat) (a b : α) :
    chainCompare configs gn gt a b = -(chainCompare configs gn gt b a) := by
  induction configs with
  | nil => rfl
  | cons cfg rest ih =>
    simp only [chainCompare]
    have h := compare_antisym cfg gn gt a b
    by_cases hz : compare a b cfg gn gt = 0
    · rw [if_neg (by omega : ¬ compare a b cfg gn gt ≠ 0),
        if_neg (by omega : ¬ compare b a cfg gn gt ≠ 0)]
      exact ih
    · rw [if_pos hz, if_pos (by omega : compare b a cfg gn gt ≠ 0)]
      exact h

/-- The comparator chain is transitive on the non-positive side. -/
theorem chainCompare_le_trans {α : Type} (configs : List SortConfig) (gn : α → String)
    (gt : α → Nat) (a b c : α)
    (h1 : chainCompare configs gn gt a b ≤ 0) (h2 : chainCompare configs gn gt b c ≤ 0) :
    chainCompare configs gn gt a c ≤ 0 := by
  induction configs with
  | nil => simp [chainCompare]
  | cons cfg rest ih =>
    obtain ⟨c1, c2, c3, c4⟩ := compare_comp cfg gn gt a b c
    simp only [chainCompare] at h1 h2 ⊢
    by_cases hab : compare a b cfg gn gt = 0 <;> by_cases hbc : compare b c cfg gn gt = 0
    · have hac : compare a c cfg gn gt = 0 := c2 hab hbc
      rw [if_neg (by omega)] at h1
      rw [if_neg (by omega)] at h2
      rw [if_neg (by omega : ¬ compare a c cfg gn gt ≠ 0)]
      exact ih h1 h2
    · rw [if_pos hbc] at h2
      have hac := c4 hab (lt_of_le_of_ne h2 hbc)
      rw [if_pos (by omega)]
      omega
    · rw [if_pos hab] at h1
      have hac := c3 (lt_of_le_of_ne h1 hab) hbc
      rw [if_pos (by omega)]
      omega
    · rw [if_pos hab] at h1
      rw [if_pos hbc] at h2
      have hac := c1 (lt_of_le_of_ne h1 hab) (lt_of_le_of_ne h2 hbc)
      rw [if_pos (by omega)]
      omega

/-- With every level `none`, the comparator chain is constantly zero. -/
theorem chainCompare_all_none {α : Type} (configs : List SortConfig) (gn : α → String)
    (gt : α → Nat) (a b : α) (h : ∀ cfg ∈ configs, cfg.method = SortMethod.none) :
    chainCompare configs gn gt a b = 0 := by
  induction configs with
  | nil => rfl
  | cons cfg rest ih =>
    have hm := h cfg (List.mem_cons_self _ _)
    have hz : compare a b cfg gn gt = 0 := by
      rcases cfg with ⟨m, d⟩
      cases hm
      simp [compare]
    simp only [chainCompare, hz]
    simpa using ih (fun c hc => h c (List.mem_cons_of_mem _ hc))

/-! ## Claim C5 -/

/-- C5: `sortFolderItems` orders items by the three-level comparator
chain — two items are placed in the order the primary comparator gives
when it distinguishes them, ties fall through to the secondary and then
the tertiary level (that is exactly `chainCompare`, whose value is the
first non-zero level result, and the output is pairwise ordered by
`chainCompare ≤ 0` while the chain is antisymmetric) — and items tied
on all three levels keep their original relative order (stability),
the output being a permutation of the input. -/
theorem claim5_sortFolderItems (items : List FolderItem) (primary secondary tertiary : String) :
    (sortFolderItems items primary secondary tertiary).Perm items ∧
    (sortFolderItems items primary secondary tertiary).Pairwise (fun a b =>
      chainCompare ([primary, secondary, tertiary].map parseSortPreference)
        itemGetName itemGetTime a b ≤ 0) ∧
    (∀ a b : FolderItem,
      chainCompare ([primary, secondary, tertiary].map parseSortPreference)
        itemGetName itemGetTime a b = 0 →
      List.Sublist [a, b] items →
      List.Sublist [a, b] (sortFolderItems items primary secondary tertiary)) ∧
    (∀ a b : FolderItem,
      chainCompare ([primary, secondary, tertiary].map parseSortPreference)
        itemGetName itemGetTime a b =
      -(chainCompare ([primary, secondary, tertiary].map parseSortPreference)
        itemGetName itemGetTime b a)) := by
  have htrans : ∀ x y z : FolderItem,
      (fun a b : FolderItem =>
        decide (chainCompare ([primary, secondary, tertiary].map parseSortPreference)
          itemGetName itemGetTime a b ≤ 0)) x y →
      (fun a b : FolderItem =>
        decide (chainCompare ([primary, secondary, tertiary].map parseSortPreference)
          itemGetName itemGetTime a b ≤ 0)) y z →
      (fun a b : FolderItem =>
        decide (chainCompare ([primary, secondary, tertiary].map parseSortPreference)
          itemGetName itemGetTime a b ≤ 0)) x z := by
    intro x y z h1 h2
    simp only [decide_eq_true_iff] at h1 h2 ⊢
    exact chainCompare_le_trans _ _ _ x y z h1 h2
  have htotal : ∀ x y : FolderItem,
      ((fun a b : FolderItem =>
        decide (chainCompare ([primary, secondary, tertiary].map parseSortPreference)
          itemGetName itemGetTime a b ≤ 0)) x y ||
       (fun a b : FolderItem =>
        decide (chainCompare ([primary, secondary, tertiary].map parseSortPreference)
          itemGetName itemGetTime a b ≤ 0)) y x) = true := by
    intro x y
    simp only [Bool.or_eq_true, decide_eq_true_iff]
    have h := chainCompare_antisym ([primary, secondary, tertiary].map parseSortPreference)
      itemGetName itemGetTime x y
    omega
  by_cases hall : ([primary, secondary, tertiary].map parseSortPreference).all
      (fun c => c.method == SortMethod.none) = true
  · have hz : ∀ a b : FolderItem,
        chainCompare ([primary, secondary, tertiary].map parseSortPreference)
          itemGetName itemGetTime a b = 0 := by
      intro a b
      apply chainCompare_all_none
      intro cfg hcfg
      have := List.all_eq_true.mp hall cfg hcfg
      simpa using this
    have hout : sortFolderItems items primary secondary tertiary = items := by
      simp only [sortFolderItems, hall, if_true]
    rw [hout]
    refine ⟨List.Perm.refl items, ?_, ?_, ?_⟩
    · exact List.pairwise_of_forall (fun a b => le_of_eq (hz a b))
    · intro a b _ hsub
      exact hsub
    · intro a b
      exact chainCompare_antisym _ _ _ a b
  · rw [Bool.not_eq_true] at hall
    have hout : sortFolderItems items primary secondary tertiary =
        items.mergeSort (fun a b =>
          decide (chainCompare ([primary, secondary, tertiary].map parseSortPreference)
            itemGetName itemGetTime a b ≤ 0)) := by
      simp only [sortFolderItems, hall, Bool.false_eq_true, if_false]
    rw [hout]
    refine ⟨List.mergeSort_perm items _, ?_, ?_, ?_⟩
    · have hp := List.sorted_mergeSort htrans htotal items
      exact hp.imp (fun h => by simpa using h)
    · intro a b h0 hsub
      have h0' : chainCompare [parseSortPreference primary, parseSortPreference secondary,
          parseSortPreference tertiary] itemGetName itemGetTime a b = 0 := by simpa using h0
      exact List.pair_sublist_mergeSort htrans htotal (by simp [h0']) hsub
    · intro a b
      exact chainCompare_antisym _ _ _ a b

/-- An item with a two-character name and no timestamp. -/
def c5ItemA : FolderItem := { id := "1", name := "aa", type := ItemType.website, url := some "u1" }

/-- Another item with a two-character name and no timestamp: tied with
`c5ItemA` on every sorting level of `length-asc`, `none`, `none`. -/
def c5ItemB : FolderItem := { id := "2", name := "bb", type := ItemType.website, url := some "u2" }

/-- Witness for C5: two items tied on all three levels keep their
original relative order under the sort. -/
theorem claim5_sortFolderItems_witness :
    List.Sublist [c5ItemA, c5ItemB]
      (sortFolderItems [c5ItemA, c5ItemB] "length-asc" "none" "none") :=
  (claim5_sortFolderItems [c5ItemA, c5ItemB] "length-asc" "none" "none").2.2.1
    c5ItemA c5ItemB (by decide) (List.Sublist.refl _)

end Folders
